import Mathlib

/-!
Shallow embedding of the macro-expansion database queries defined in
`crates/ra_hir_expand/src/db.rs`.  The external collaborators (the `tt`
and `mbe` crates, the syntax-tree library and the salsa database) are
modelled as oracle fields of a `Db` structure; the functions of `db.rs`
are translated directly, branch for branch.
-/

namespace RaHirExpand

/-- Token ids of the external `tt` crate, modelled as natural numbers. -/
abbrev TokenId := Nat

/-- Interned id of a lazy macro call. -/
abbrev LazyMacroId := Nat

/-- Interned id of an eager macro call. -/
abbrev EagerMacroId := Nat

/-- Stable ast address of a node inside a (virtual) file. -/
abbrev AstId := Nat

/-- Abstract handle of a concrete syntax node; its properties are read
through oracle fields of `Db`. -/
abbrev SyntaxNode := Nat

/-- Abstract handle of the defining `ast::MacroCall` node of a
declarative macro. -/
abbrev MacroCallNode := Nat

/-- Abstract representation of `MacroCallKind` (the enclosing-node data
of an interned call location); its accessors `arg` and `node` are
oracle fields of `Db`. -/
abbrev MacroCallKind := Nat

/-- Identity of a pre-registered builtin function-like expander. -/
abbrev BuiltinFnLikeExpander := Nat

/-- Identity of a pre-registered builtin derive expander. -/
abbrev BuiltinDeriveExpander := Nat

/-- Abstract expansion-error value of the mbe crate; turned into a
string by the `debug_format` oracle. -/
abbrev ExpandError := Nat

/-- Modelled from the spec: the delimiter-nested token-tree
intermediate representation of the external `tt` crate (not part of the
sources under verification): a leaf token or a delimited subtree of
child trees. -/
inductive TokenTree where
  | leaf (tok : Nat) : TokenTree
  | subtree (children : List TokenTree) : TokenTree

/-- A token subtree, the unit macros consume and emit. -/
abbrev Subtree := TokenTree

mutual
/-- Modelled from the spec: the output token count checked by the size
guard (a leaf counts one token, a subtree counts its children). -/
def TokenTree.count : TokenTree → Nat
  | .leaf _ => 1
  | .subtree cs => countList cs

/-- Token count of a list of token trees. -/
def countList : List TokenTree → Nat
  | [] => 0
  | t :: ts => TokenTree.count t + countList ts
end

/-- A half-open text range inside one file, in offsets. -/
structure TextRange where
  start : Nat
  stop : Nat
  deriving DecidableEq

/-- Subtract an offset from both endpoints, failing on underflow, as
`TextRange::checked_sub` of the syntax library does. -/
def TextRange.checked_sub (r : TextRange) (off : Nat) : Option TextRange :=
  if off ≤ r.start ∧ off ≤ r.stop then some ⟨r.start - off, r.stop - off⟩ else none

/-- The syntactic category of a node, as used by `to_fragment_kind`:
the kinds matched by the source plus a numbered catch-all `OTHER` for
every kind the source leaves to its default arm. -/
inductive SyntaxKind where
  | MACRO_ITEMS
  | SOURCE_FILE
  | ITEM_LIST
  | LET_STMT
  | EXPR_STMT
  | BLOCK
  | ARG_LIST
  | TRY_EXPR
  | TUPLE_EXPR
  | PAREN_EXPR
  | FOR_EXPR
  | PATH_EXPR
  | LAMBDA_EXPR
  | CONDITION
  | BREAK_EXPR
  | RETURN_EXPR
  | BLOCK_EXPR
  | MATCH_EXPR
  | MATCH_ARM
  | MATCH_GUARD
  | RECORD_FIELD
  | CALL_EXPR
  | INDEX_EXPR
  | METHOD_CALL_EXPR
  | AWAIT_EXPR
  | CAST_EXPR
  | REF_EXPR
  | PREFIX_EXPR
  | RANGE_EXPR
  | BIN_EXPR
  | OTHER (code : Nat)
  deriving DecidableEq

/-- A concrete token of the syntax library, carrying its range and
kind. -/
structure SyntaxToken where
  range : TextRange
  kind : SyntaxKind
  deriving DecidableEq

/-- A syntax element: either a node or a token. -/
inductive SyntaxElement where
  | node (n : SyntaxNode) : SyntaxElement
  | token (t : SyntaxToken) : SyntaxElement
  deriving DecidableEq

/-- Convert an element into a token, failing on nodes. -/
def SyntaxElement.into_token : SyntaxElement → Option SyntaxToken
  | .node _ => none
  | .token t => some t

/-- The fragment kind a token stream is re-parsed as; only the two
kinds produced by this module are modelled. -/
inductive FragmentKind where
  | Items
  | Expr
  deriving DecidableEq

/-- Origin tag of a token id mapped up through an expansion. -/
inductive Origin where
  | Call
  | Def
  deriving DecidableEq

/-- Modelled from the spec: the range information the reverse token map
attaches to one token id, queried by the syntactic kind of the token of
interest. -/
structure TokenTextRange where
  by_kind : SyntaxKind → Option TextRange

/-- Modelled from the spec: the bidirectional association between text
ranges and token ids produced by one token-tree conversion. -/
structure TokenMap where
  token_by_range : TextRange → Option TokenId
  range_by_token : TokenId → Option TokenTextRange

/-- The empty token map carried by builtin expanders. -/
def TokenMap.default : TokenMap := ⟨fun _ => none, fun _ => none⟩

/-- Modelled from the spec: a parsed rule table of the external mbe
crate, exposing its expansion behaviour and its token-id translation in
both directions. -/
structure MacroRules where
  expand : Subtree → Subtree × Option ExpandError
  map_id_down : TokenId → TokenId
  map_id_up : TokenId → TokenId × Origin

/-- The kind of a macro definition. -/
inductive MacroDefKind where
  | Declarative
  | BuiltIn (e : BuiltinFnLikeExpander)
  | BuiltInDerive (e : BuiltinDeriveExpander)
  | BuiltInEager (e : Nat)
  deriving DecidableEq

/-- A macro definition id: its kind plus the optional stable address of
its defining node. -/
structure MacroDefId where
  ast_id : Option AstId
  kind : MacroDefKind
  deriving DecidableEq

/-- An interned lazy call location; `def_id` embeds the source field
named `def` (a Lean keyword). -/
structure MacroCallLoc where
  def_id : MacroDefId
  kind : MacroCallKind
  deriving DecidableEq

/-- An interned eager call location: the precomputed output subtree and
its fragment kind. -/
structure EagerCallLoc where
  subtree : Subtree
  fragment : FragmentKind

/-- Identifier of one macro invocation. -/
inductive MacroCallId where
  | LazyMacro (id : LazyMacroId)
  | EagerMacro (id : EagerMacroId)
  deriving DecidableEq

/-- A virtual file produced by one macro call. -/
structure MacroFile where
  macro_call_id : MacroCallId
  deriving DecidableEq

/-- The re-parsed tree produced from an expansion output. -/
structure Parse where
  syntax_node : SyntaxNode
  deriving DecidableEq

/-- An `ast::TokenTree` node, as passed for hypothetical arguments and
found as the body of a declarative definition. -/
structure AstTokenTree where
  syn : SyntaxNode
  deriving DecidableEq

/-- The ambient salsa database together with the external crates the
module calls into, modelled as an oracle structure: interning tables,
syntax-tree accessors and the token-tree bridge of the mbe crate. -/
structure Db where
  lookup_intern_macro_loc : LazyMacroId → MacroCallLoc
  lookup_intern_eager_expansion : EagerMacroId → EagerCallLoc
  ast_id_to_node : AstId → MacroCallNode
  macro_call_token_tree : MacroCallNode → Option AstTokenTree
  ast_to_token_tree : AstTokenTree → Option (Subtree × TokenMap)
  macro_rules_parse : Subtree → Except Nat MacroRules
  kind_arg : MacroCallKind → Option SyntaxNode
  kind_node : MacroCallKind → SyntaxNode
  syntax_node_to_token_tree : SyntaxNode → Option (Subtree × TokenMap)
  token_tree_to_syntax_node : Subtree → FragmentKind → Option (Parse × TokenMap)
  builtin_expand : BuiltinFnLikeExpander → LazyMacroId → Subtree → Subtree × Option ExpandError
  builtin_derive_expand :
    BuiltinDeriveExpander → LazyMacroId → Subtree → Subtree × Option ExpandError
  debug_format : ExpandError → String
  node_parent_kind : SyntaxNode → Option SyntaxKind
  node_range : SyntaxNode → TextRange
  find_covering_element : SyntaxNode → TextRange → SyntaxElement

/-- The dispatching expander bound to a resolved definition
(`enum TokenExpander` of the source). -/
inductive TokenExpander where
  | MacroRules (rules : MacroRules)
  | Builtin (e : BuiltinFnLikeExpander)
  | BuiltinDerive (e : BuiltinDeriveExpander)

/-- Raw expansion dispatch (`TokenExpander::expand`). -/
def TokenExpander.expand (self : TokenExpander) (db : Db) (id : LazyMacroId) (tt : Subtree) :
    Subtree × Option ExpandError :=
  match self with
  | .MacroRules it => it.expand tt
  | .Builtin it => db.builtin_expand it id tt
  | .BuiltinDerive it => db.builtin_derive_expand it id tt

/-- Token-id translation into the expansion output id space
(`TokenExpander::map_id_down`). -/
def TokenExpander.map_id_down (self : TokenExpander) (id : TokenId) : TokenId :=
  match self with
  | .MacroRules it => it.map_id_down id
  | .Builtin _ => id
  | .BuiltinDerive _ => id

/-- Token-id translation out of the expansion output id space
(`TokenExpander::map_id_up`). -/
def TokenExpander.map_id_up (self : TokenExpander) (id : TokenId) : TokenId × Origin :=
  match self with
  | .MacroRules it => it.map_id_up id
  | .Builtin _ => (id, Origin.Call)
  | .BuiltinDerive _ => (id, Origin.Call)

/-- Definition resolution (`macro_def` of the source): parse the
defining body of a declarative macro into a rule table, hand out the
registered builtin expanders, and fail on eager definitions. -/
def macro_def (db : Db) (id : MacroDefId) : Option (TokenExpander × TokenMap) :=
  match id.kind with
  | .Declarative =>
    match id.ast_id with
    | none => none
    | some ast_id =>
      match db.macro_call_token_tree (db.ast_id_to_node ast_id) with
      | none => none
      | some arg =>
        match db.ast_to_token_tree arg with
        | none => none
        | some (tt, tmap) =>
          match db.macro_rules_parse tt with
          | .ok rules => some (TokenExpander.MacroRules rules, tmap)
          | .error _ => none
  | .BuiltIn e => some (.Builtin e, TokenMap.default)
  | .BuiltInDerive e => some (.BuiltinDerive e, TokenMap.default)
  | .BuiltInEager _ => none

/-- Argument resolution (`macro_arg` of the source): locate the call
argument node and convert it to a token tree; eager ids fail. -/
def macro_arg (db : Db) (id : MacroCallId) : Option (Subtree × TokenMap) :=
  match id with
  | .EagerMacro _ => none
  | .LazyMacro lazy_id =>
    match db.kind_arg (db.lookup_intern_macro_loc lazy_id).kind with
    | none => none
    | some arg => db.syntax_node_to_token_tree arg

/-- Expander lookup for a call (`expander` of the source): resolve the
definition of a lazy call, fail on eager calls. -/
def expander (db : Db) (id : MacroCallId) : Option (TokenExpander × TokenMap) :=
  match id with
  | .EagerMacro _ => none
  | .LazyMacro lazy_id => macro_def db (db.lookup_intern_macro_loc lazy_id).def_id

/-- The expansion pipeline with an optional argument override
(`macro_expand_with_arg` of the source). -/
def macro_expand_with_arg (db : Db) (id : MacroCallId) (arg : Option (Subtree × TokenMap)) :
    Option Subtree × Option String :=
  match id with
  | .EagerMacro eager_id =>
    if arg.isSome then
      (none, some "hypothetical macro expansion not implemented for eager macro")
    else
      (some (db.lookup_intern_eager_expansion eager_id).subtree, none)
  | .LazyMacro lazy_id =>
    match arg.orElse (fun _ => macro_arg db (.LazyMacro lazy_id)) with
    | none => (none, some "Fail to args in to tt::TokenTree")
    | some marg =>
      match macro_def db (db.lookup_intern_macro_loc lazy_id).def_id with
      | none => (none, some "Fail to find macro definition")
      | some mrules =>
        match TokenExpander.expand mrules.1 db lazy_id marg.1 with
        | (tt, err) =>
          if TokenTree.count tt > 65536 then
            (none,
              some ("Total tokens count exceed limit : count = " ++
                toString (TokenTree.count tt)))
          else
            (some tt, err.map db.debug_format)

/-- The memoized expansion query (`macro_expand` of the source). -/
def macro_expand (db : Db) (id : MacroCallId) : Option Subtree × Option String :=
  macro_expand_with_arg db id none

/-- Fragment-kind inference (`to_fragment_kind` of the source): an
eager call carries its fragment kind; a lazy call classifies by the
kind of the immediate parent of its call node. -/
def to_fragment_kind (db : Db) (id : MacroCallId) : FragmentKind :=
  match id with
  | .EagerMacro eager_id => (db.lookup_intern_eager_expansion eager_id).fragment
  | .LazyMacro lazy_id =>
    match db.node_parent_kind (db.kind_node (db.lookup_intern_macro_loc lazy_id).kind) with
    | none => FragmentKind.Expr
    | some parent_kind =>
      match parent_kind with
      | .MACRO_ITEMS | .SOURCE_FILE => FragmentKind.Items
      | .ITEM_LIST => FragmentKind.Items
      | .LET_STMT => FragmentKind.Expr
      | .EXPR_STMT | .BLOCK => FragmentKind.Expr
      | .ARG_LIST => FragmentKind.Expr
      | .TRY_EXPR => FragmentKind.Expr
      | .TUPLE_EXPR => FragmentKind.Expr
      | .PAREN_EXPR => FragmentKind.Expr
      | .FOR_EXPR => FragmentKind.Expr
      | .PATH_EXPR => FragmentKind.Expr
      | .LAMBDA_EXPR => FragmentKind.Expr
      | .CONDITION => FragmentKind.Expr
      | .BREAK_EXPR => FragmentKind.Expr
      | .RETURN_EXPR => FragmentKind.Expr
      | .BLOCK_EXPR => FragmentKind.Expr
      | .MATCH_EXPR => FragmentKind.Expr
      | .MATCH_ARM => FragmentKind.Expr
      | .MATCH_GUARD => FragmentKind.Expr
      | .RECORD_FIELD => FragmentKind.Expr
      | .CALL_EXPR => FragmentKind.Expr
      | .INDEX_EXPR => FragmentKind.Expr
      | .METHOD_CALL_EXPR => FragmentKind.Expr
      | .AWAIT_EXPR => FragmentKind.Expr
      | .CAST_EXPR => FragmentKind.Expr
      | .REF_EXPR => FragmentKind.Expr
      | .PREFIX_EXPR => FragmentKind.Expr
      | .RANGE_EXPR => FragmentKind.Expr
      | .BIN_EXPR => FragmentKind.Expr
      | _ => FragmentKind.Items

/-- Expansion plus re-parse with an optional argument override
(`parse_macro_with_arg` of the source); the source additionally logs
the error component, which has no observable effect. -/
def parse_macro_with_arg (db : Db) (macro_file : MacroFile)
    (arg : Option (Subtree × TokenMap)) : Option (Parse × TokenMap) :=
  match (match arg with
         | some a => macro_expand_with_arg db macro_file.macro_call_id (some a)
         | none => macro_expand db macro_file.macro_call_id).1 with
  | none => none
  | some tt =>
    db.token_tree_to_syntax_node tt (to_fragment_kind db macro_file.macro_call_id)

/-- The memoized re-parse query (`parse_macro` of the source). -/
def parse_macro (db : Db) (macro_file : MacroFile) : Option (Parse × TokenMap) :=
  parse_macro_with_arg db macro_file none

/-- Speculative expansion with substituted arguments
(`expand_hypothetical` of the source).  The source unwraps the first
conversion; the spec declares the forward conversion total, so the
`none` branch of the first match models a branch the source asserts
unreachable. -/
def expand_hypothetical (db : Db) (actual_macro_call : MacroCallId)
    (hypothetical_args : AstTokenTree) (token_to_map : SyntaxToken) :
    Option (SyntaxNode × SyntaxToken) :=
  match db.syntax_node_to_token_tree hypothetical_args.syn with
  | none => none
  | some (tt, tmap_1) =>
    match TextRange.checked_sub token_to_map.range
        (db.node_range hypothetical_args.syn).start with
    | none => none
    | some range =>
      match tmap_1.token_by_range range with
      | none => none
      | some token_id =>
        match expander db actual_macro_call with
        | none => none
        | some mdef =>
          match parse_macro_with_arg db ⟨actual_macro_call⟩ (some (tt, tmap_1)) with
          | none => none
          | some (node, tmap_2) =>
            match tmap_2.range_by_token (TokenExpander.map_id_down mdef.1 token_id) with
            | none => none
            | some tr =>
              match TokenTextRange.by_kind tr token_to_map.kind with
              | none => none
              | some range2 =>
                match SyntaxElement.into_token
                    (db.find_covering_element node.syntax_node range2) with
                | none => none
                | some token => some (node.syntax_node, token)

/-- The parent kinds handled by named arms of `to_fragment_kind`; every
kind outside this list falls to the default arm. -/
def handledParentKinds : List SyntaxKind :=
  [.MACRO_ITEMS, .SOURCE_FILE, .ITEM_LIST, .LET_STMT, .EXPR_STMT, .BLOCK, .ARG_LIST,
   .TRY_EXPR, .TUPLE_EXPR, .PAREN_EXPR, .FOR_EXPR, .PATH_EXPR, .LAMBDA_EXPR, .CONDITION,
   .BREAK_EXPR, .RETURN_EXPR, .BLOCK_EXPR, .MATCH_EXPR, .MATCH_ARM, .MATCH_GUARD,
   .RECORD_FIELD, .CALL_EXPR, .INDEX_EXPR, .METHOD_CALL_EXPR, .AWAIT_EXPR, .CAST_EXPR,
   .REF_EXPR, .PREFIX_EXPR, .RANGE_EXPR, .BIN_EXPR]

/-- A token subtree with no children, used by the concrete databases
below. -/
def smallTree : Subtree := TokenTree.subtree []

/-- A subtree holding 65537 leaf tokens, one more than the size
bound. -/
def bigTree : Subtree := TokenTree.subtree (List.replicate 65537 (TokenTree.leaf 0))

/-- A declarative definition id with no defining node. -/
def noAstDefId : MacroDefId := ⟨none, MacroDefKind.Declarative⟩

/-- A builtin function-like definition id. -/
def builtinDefId : MacroDefId := ⟨none, MacroDefKind.BuiltIn 0⟩

/-- A base concrete database used by the witnesses: every lazy call
resolves its argument to the empty subtree and refers to a declarative
definition with no defining node. -/
def baseDb : Db where
  lookup_intern_macro_loc := fun _ => ⟨noAstDefId, 0⟩
  lookup_intern_eager_expansion := fun _ => ⟨smallTree, FragmentKind.Expr⟩
  ast_id_to_node := fun _ => 0
  macro_call_token_tree := fun _ => none
  ast_to_token_tree := fun _ => none
  macro_rules_parse := fun _ => Except.error 0
  kind_arg := fun _ => some 0
  kind_node := fun _ => 0
  syntax_node_to_token_tree := fun _ => some (smallTree, TokenMap.default)
  token_tree_to_syntax_node := fun _ _ => none
  builtin_expand := fun _ _ _ => (smallTree, none)
  builtin_derive_expand := fun _ _ _ => (smallTree, none)
  debug_format := fun _ => ""
  node_parent_kind := fun _ => none
  node_range := fun _ => ⟨0, 0⟩
  find_covering_element := fun _ _ => SyntaxElement.node 0

/-- Variant of `baseDb` differing only in a field the expansion
pipeline never reads. -/
def baseDb2 : Db := { baseDb with node_range := fun _ => ⟨1, 1⟩ }

/-- Database whose lazy calls resolve to a builtin definition whose
expansion output exceeds the token bound. -/
def bigBuiltinDb : Db :=
  { baseDb with
    lookup_intern_macro_loc := fun _ => ⟨builtinDefId, 0⟩,
    builtin_expand := fun _ _ _ => (bigTree, none) }

/-- Database whose eager calls carry a precomputed subtree that exceeds
the token bound. -/
def bigEagerDb : Db :=
  { baseDb with lookup_intern_eager_expansion := fun _ => ⟨bigTree, FragmentKind.Expr⟩ }

/-- Database whose lazy call nodes sit directly in a source file. -/
def itemsParentDb : Db :=
  { baseDb with node_parent_kind := fun _ => some SyntaxKind.SOURCE_FILE }

/-- Database whose lazy call nodes have a parent of an unlisted
kind. -/
def otherParentDb : Db :=
  { baseDb with node_parent_kind := fun _ => some (SyntaxKind.OTHER 0) }

/-- A token map locating every range at token id 0 and every token id
at the zero range. -/
def fullMap : TokenMap := ⟨fun _ => some 0, fun _ => some ⟨fun _ => some ⟨0, 0⟩⟩⟩

/-- Database on which every stage of hypothetical expansion
succeeds. -/
def hypoDb : Db :=
  { baseDb with
    lookup_intern_macro_loc := fun _ => ⟨builtinDefId, 0⟩,
    syntax_node_to_token_tree := fun _ => some (smallTree, fullMap),
    token_tree_to_syntax_node := fun _ _ => some (⟨5⟩, fullMap),
    find_covering_element := fun _ _ => SyntaxElement.token ⟨⟨0, 0⟩, SyntaxKind.OTHER 0⟩ }

/-- Counting a replicated list of leaves gives its length. -/
theorem countList_replicate (n : Nat) (tok : Nat) :
    countList (List.replicate n (TokenTree.leaf tok)) = n := by
  induction n with
  | zero => rfl
  | succ k ih =>
    simp only [List.replicate_succ, countList, TokenTree.count, ih]
    omega

/-- The token count of a subtree is the count of its child list. -/
theorem count_subtree (cs : List TokenTree) :
    TokenTree.count (TokenTree.subtree cs) = countList cs := by
  simp only [TokenTree.count]

/-- The oversized example subtree holds 65537 tokens. -/
theorem bigTree_count : TokenTree.count bigTree = 65537 := by
  rw [show bigTree = TokenTree.subtree (List.replicate 65537 (TokenTree.leaf 0)) from rfl,
    count_subtree, countList_replicate]

/-- Raw expansion dispatch reads the database only through the two
builtin registries. -/
theorem expand_dispatch_congr (db1 db2 : Db)
    (h1 : db1.builtin_expand = db2.builtin_expand)
    (h2 : db1.builtin_derive_expand = db2.builtin_derive_expand) :
    ∀ (e : TokenExpander) (l : LazyMacroId) (t : Subtree),
      TokenExpander.expand e db1 l t = TokenExpander.expand e db2 l t := by
  intro e l t
  cases e <;> simp [TokenExpander.expand, h1, h2]

/-- C4: for every database state, argument resolution applied to an
eager macro call id returns nothing. -/
theorem macro_arg_eager_none (db : Db) (eager_id : EagerMacroId) :
    macro_arg db (.EagerMacro eager_id) = none := rfl

/-- C5: for every eager call id with no argument override, expansion
returns the precomputed subtree stored in the interned eager call
location, with no error message. -/
theorem macro_expand_eager_precomputed (db : Db) (eager_id : EagerMacroId) :
    macro_expand db (.EagerMacro eager_id) =
      (some (db.lookup_intern_eager_expansion eager_id).subtree, none) := rfl

/-- C7: the builtin function-like and builtin derive expander variants
map every token id down to itself. -/
theorem builtin_map_id_down_id (e1 : BuiltinFnLikeExpander) (e2 : BuiltinDeriveExpander)
    (id : TokenId) :
    TokenExpander.map_id_down (.Builtin e1) id = id ∧
    TokenExpander.map_id_down (.BuiltinDerive e2) id = id := ⟨rfl, rfl⟩

/-- C3: fragment-kind inference follows the fixed parent-kind table:
module or item-list-like parents give Items; statement, block,
argument-list, return, match-arm and binary-expression parents give
Expr; a call node with no parent gives Expr. -/
theorem to_fragment_kind_table (db : Db) (lazy_id : LazyMacroId) (pk : Option SyntaxKind)
    (hp : db.node_parent_kind (db.kind_node (db.lookup_intern_macro_loc lazy_id).kind) = pk) :
    ((pk = some .MACRO_ITEMS ∨ pk = some .SOURCE_FILE ∨ pk = some .ITEM_LIST) →
      to_fragment_kind db (.LazyMacro lazy_id) = FragmentKind.Items) ∧
    ((pk = some .LET_STMT ∨ pk = some .EXPR_STMT ∨ pk = some .BLOCK ∨ pk = some .ARG_LIST ∨
      pk = some .RETURN_EXPR ∨ pk = some .MATCH_ARM ∨ pk = some .BIN_EXPR) →
      to_fragment_kind db (.LazyMacro lazy_id) = FragmentKind.Expr) ∧
    (pk = none → to_fragment_kind db (.LazyMacro lazy_id) = FragmentKind.Expr) := by
  subst hp
  refine ⟨?_, ?_, ?_⟩ <;> intro h
  · rcases h with h | h | h <;> · simp only [to_fragment_kind]; rw [h]
  · rcases h with h | h | h | h | h | h | h <;> · simp only [to_fragment_kind]; rw [h]
  · simp only [to_fragment_kind]; rw [h]

/-- C3 witness: in the concrete database whose call node sits directly
in a source file, the inferred fragment kind is Items. -/
theorem to_fragment_kind_table_witness :
    to_fragment_kind itemsParentDb (.LazyMacro 0) = FragmentKind.Items :=
  (to_fragment_kind_table itemsParentDb 0 (some .SOURCE_FILE) rfl).1 (Or.inr (Or.inl rfl))

/-- C10: a lazy call whose parent has a kind outside the handled table
falls to the default arm, which yields Items. -/
theorem to_fragment_kind_unknown_parent (db : Db) (lazy_id : LazyMacroId) (k : SyntaxKind)
    (hk : db.node_parent_kind (db.kind_node (db.lookup_intern_macro_loc lazy_id).kind) =
      some k)
    (hnot : k ∉ handledParentKinds) :
    to_fragment_kind db (.LazyMacro lazy_id) = FragmentKind.Items := by
  simp only [to_fragment_kind]
  rw [hk]
  cases k <;> first
    | rfl
    | exact absurd (by simp [handledParentKinds]) hnot

/-- C10 witness: in the concrete database whose call node has a parent
of an unlisted kind, the inferred fragment kind is Items. -/
theorem to_fragment_kind_unknown_parent_witness :
    to_fragment_kind otherParentDb (.LazyMacro 0) = FragmentKind.Items :=
  to_fragment_kind_unknown_parent otherParentDb 0 (SyntaxKind.OTHER 0) rfl (by decide)

/-- The empty example subtree holds no token. -/
theorem smallTree_count : TokenTree.count smallTree = 0 := by
  rw [show smallTree = TokenTree.subtree [] from rfl, count_subtree]
  simp [countList]

/-- A lazy call whose resolved expansion output stays within the bound
returns that output together with the formatted expander
diagnostic. -/
theorem macro_expand_within_limit (db : Db) (lazy_id : LazyMacroId)
    (arg : Option (Subtree × TokenMap)) (marg : Subtree × TokenMap)
    (mrules : TokenExpander × TokenMap)
    (harg : arg.orElse (fun _ => macro_arg db (.LazyMacro lazy_id)) = some marg)
    (hdef : macro_def db (db.lookup_intern_macro_loc lazy_id).def_id = some mrules)
    (hsmall : ¬ TokenTree.count (TokenExpander.expand mrules.1 db lazy_id marg.1).1 > 65536) :
    macro_expand_with_arg db (.LazyMacro lazy_id) arg =
      (some (TokenExpander.expand mrules.1 db lazy_id marg.1).1,
        (TokenExpander.expand mrules.1 db lazy_id marg.1).2.map db.debug_format) := by
  rcases hE : TokenExpander.expand mrules.1 db lazy_id marg.1 with ⟨tt, err⟩
  rw [hE] at hsmall
  simp only [macro_expand_with_arg, harg, hdef, hE]
  rw [if_neg hsmall]

/-- C1 (amended): a lazy call that reaches the size-guard stage with an
output holding more than 65536 tokens fails with a message carrying the
actual token count; the oversized output is discarded. -/
theorem macro_expand_size_guard (db : Db) (lazy_id : LazyMacroId)
    (arg : Option (Subtree × TokenMap)) (marg : Subtree × TokenMap)
    (mrules : TokenExpander × TokenMap)
    (harg : arg.orElse (fun _ => macro_arg db (.LazyMacro lazy_id)) = some marg)
    (hdef : macro_def db (db.lookup_intern_macro_loc lazy_id).def_id = some mrules)
    (hbig : TokenTree.count (TokenExpander.expand mrules.1 db lazy_id marg.1).1 > 65536) :
    macro_expand_with_arg db (.LazyMacro lazy_id) arg =
      (none, some ("Total tokens count exceed limit : count = " ++
        toString (TokenTree.count (TokenExpander.expand mrules.1 db lazy_id marg.1).1))) := by
  rcases hE : TokenExpander.expand mrules.1 db lazy_id marg.1 with ⟨tt, err⟩
  rw [hE] at hbig
  simp only [macro_expand_with_arg, harg, hdef, hE]
  rw [if_pos hbig]

/-- C1 witness: in the concrete database whose builtin expander emits
65537 tokens, the lazy call fails with the token-limit message carrying
the count. -/
theorem macro_expand_size_guard_witness :
    macro_expand_with_arg bigBuiltinDb (.LazyMacro 0) none =
      (none, some ("Total tokens count exceed limit : count = " ++
        toString (TokenTree.count bigTree))) := by
  have hbig : TokenTree.count
      (TokenExpander.expand (TokenExpander.Builtin 0) bigBuiltinDb 0 smallTree).1 > 65536 := by
    rw [show (TokenExpander.expand (TokenExpander.Builtin 0) bigBuiltinDb 0 smallTree).1
      = bigTree from rfl, bigTree_count]
    omega
  exact macro_expand_size_guard bigBuiltinDb 0 none (smallTree, TokenMap.default)
    (TokenExpander.Builtin 0, TokenMap.default) rfl rfl hbig

/-- C1 counterexample: an eager call id whose precomputed subtree holds
65537 tokens, more than the bound, is returned as a success with no
error message -- the eager branch returns before the size guard. -/
theorem size_guard_eager_cex :
    TokenTree.count bigTree > 65536 ∧
    macro_expand bigEagerDb (.EagerMacro 0) = (some bigTree, none) ∧
    (macro_expand bigEagerDb (.EagerMacro 0)).1 ≠ none := by
  refine ⟨?_, rfl, ?_⟩
  · rw [bigTree_count]; omega
  · rw [show macro_expand bigEagerDb (.EagerMacro 0) = (some bigTree, none) from rfl]
    simp

/-- C2: expansion is a function of its declared dependencies only --
two database states agreeing on the interned call locations, the
resolved definitions, the resolved arguments, the fixed builtin
registries and the fixed error formatter expand every call to identical
output and identical error status. -/
theorem macro_expand_deterministic (db1 db2 : Db) (id : MacroCallId)
    (h_eager : ∀ e, db1.lookup_intern_eager_expansion e = db2.lookup_intern_eager_expansion e)
    (h_loc : ∀ l, db1.lookup_intern_macro_loc l = db2.lookup_intern_macro_loc l)
    (h_def : ∀ d, macro_def db1 d = macro_def db2 d)
    (h_arg : ∀ i, macro_arg db1 i = macro_arg db2 i)
    (h_bfn : db1.builtin_expand = db2.builtin_expand)
    (h_bdr : db1.builtin_derive_expand = db2.builtin_derive_expand)
    (h_fmt : db1.debug_format = db2.debug_format) :
    macro_expand db1 id = macro_expand db2 id := by
  cases id with
  | EagerMacro e =>
    simp only [macro_expand, macro_expand_with_arg, h_eager e]
  | LazyMacro l =>
    simp only [macro_expand, macro_expand_with_arg, Option.orElse, h_loc l, h_arg, h_def,
      expand_dispatch_congr db1 db2 h_bfn h_bdr, h_fmt]

/-- C2 witness: two databases differing only in a field the pipeline
never reads expand the same call identically. -/
theorem macro_expand_deterministic_witness :
    macro_expand baseDb (.LazyMacro 0) = macro_expand baseDb2 (.LazyMacro 0) :=
  macro_expand_deterministic baseDb baseDb2 (.LazyMacro 0) (fun _ => rfl) (fun _ => rfl)
    (fun _ => rfl) (fun _ => rfl) rfl rfl rfl

/-- C6: hypothetical expansion of an eager call fails, and the
argument-override stage of the expansion pipeline classifies the
failure with the unsupported-on-eager-call message. -/
theorem eager_hypothetical_unsupported (db : Db) (eager_id : EagerMacroId)
    (hargs : AstTokenTree) (tk : SyntaxToken) (marg : Subtree × TokenMap) :
    expand_hypothetical db (.EagerMacro eager_id) hargs tk = none ∧
    macro_expand_with_arg db (.EagerMacro eager_id) (some marg) =
      (none, some "hypothetical macro expansion not implemented for eager macro") := by
  refine ⟨?_, rfl⟩
  unfold expand_hypothetical
  split
  · rfl
  split
  · rfl
  split
  · rfl
  rfl

/-- C8: a declarative definition whose defining node is missing, whose
body does not convert to a token tree, or whose rule table does not
parse resolves to no expander, and a lazy call referencing it whose
argument resolves fails with the definition-not-found message. -/
theorem macro_def_failure (db : Db) (d : MacroDefId) (hdecl : d.kind = .Declarative)
    (hfail :
      d.ast_id = none ∨
      (∃ a, d.ast_id = some a ∧ db.macro_call_token_tree (db.ast_id_to_node a) = none) ∨
      (∃ a t, d.ast_id = some a ∧ db.macro_call_token_tree (db.ast_id_to_node a) = some t ∧
        db.ast_to_token_tree t = none) ∨
      (∃ a t tt tmap e, d.ast_id = some a ∧
        db.macro_call_token_tree (db.ast_id_to_node a) = some t ∧
        db.ast_to_token_tree t = some (tt, tmap) ∧
        db.macro_rules_parse tt = Except.error e)) :
    macro_def db d = none ∧
    ∀ lazy_id marg, (db.lookup_intern_macro_loc lazy_id).def_id = d →
      macro_arg db (.LazyMacro lazy_id) = some marg →
      macro_expand db (.LazyMacro lazy_id) = (none, some "Fail to find macro definition") := by
  have hnone : macro_def db d = none := by
    rcases hfail with h | ⟨a, ha, h⟩ | ⟨a, t, ha, ht, h⟩ | ⟨a, t, tt, tmap, e, ha, ht, htt, h⟩
    · simp only [macro_def, hdecl, h]
    · simp only [macro_def, hdecl, ha, h]
    · simp only [macro_def, hdecl, ha, ht, h]
    · simp only [macro_def, hdecl, ha, ht, htt, h]
  refine ⟨hnone, ?_⟩
  intro lazy_id marg hld harg
  simp only [macro_expand, macro_expand_with_arg, Option.orElse, harg, hld, hnone]

/-- C8 witness: in the base concrete database the declarative
definition has no defining node, so resolution fails and the lazy call,
whose argument resolves, reports the definition-not-found message. -/
theorem macro_def_failure_witness :
    macro_def baseDb noAstDefId = none ∧
    macro_expand baseDb (.LazyMacro 0) = (none, some "Fail to find macro definition") := by
  have h := macro_def_failure baseDb noAstDefId rfl (Or.inl rfl)
  exact ⟨h.1, h.2 0 (smallTree, TokenMap.default) rfl rfl⟩

/-- C9: hypothetical expansion succeeds exactly when every stage finds
a correspondence -- the hypothetical argument converts, the tracked
token is located in the local map, the expander resolves, expansion
plus re-parse succeed, the translated id is found in the reverse map
filtered by the tracked token kind, and the covering element is a
token; the returned node is the re-parsed tree and the returned token
the located one. -/
theorem expand_hypothetical_spec (db : Db) (c : MacroCallId) (hargs : AstTokenTree)
    (tk : SyntaxToken) (n : SyntaxNode) (t : SyntaxToken) :
    expand_hypothetical db c hargs tk = some (n, t) ↔
      ∃ tt tmap_1 range token_id mdef node tmap_2 tr range2,
        db.syntax_node_to_token_tree hargs.syn = some (tt, tmap_1) ∧
        TextRange.checked_sub tk.range (db.node_range hargs.syn).start = some range ∧
        TokenMap.token_by_range tmap_1 range = some token_id ∧
        expander db c = some mdef ∧
        parse_macro_with_arg db ⟨c⟩ (some (tt, tmap_1)) = some (node, tmap_2) ∧
        TokenMap.range_by_token tmap_2 (TokenExpander.map_id_down mdef.1 token_id) = some tr ∧
        TokenTextRange.by_kind tr tk.kind = some range2 ∧
        SyntaxElement.into_token (db.find_covering_element node.syntax_node range2) =
          some t ∧
        n = node.syntax_node := by
  constructor
  · intro h
    unfold expand_hypothetical at h
    split at h
    · simp at h
    rename_i tt tmap_1 heq1
    split at h
    · simp at h
    rename_i range heq2
    split at h
    · simp at h
    rename_i token_id heq3
    split at h
    · simp at h
    rename_i mdef heq4
    split at h
    · simp at h
    rename_i node tmap_2 heq5
    split at h
    · simp at h
    rename_i tr heq6
    split at h
    · simp at h
    rename_i range2 heq7
    split at h
    · simp at h
    rename_i token heq8
    simp only [Option.some.injEq, Prod.mk.injEq] at h
    obtain ⟨hn, ht⟩ := h
    subst hn
    subst ht
    exact ⟨tt, tmap_1, range, token_id, mdef, node, tmap_2, tr, range2,
      heq1, heq2, heq3, heq4, heq5, heq6, heq7, heq8, rfl⟩
  · rintro ⟨tt, tmap_1, range, token_id, mdef, node, tmap_2, tr, range2,
      h1, h2, h3, h4, h5, h6, h7, h8, h9⟩
    subst h9
    unfold expand_hypothetical
    simp only [h1, h2, h3, h4, h5, h6, h7, h8]

/-- C9 witness: on the concrete database where every stage succeeds,
hypothetical expansion returns the re-parsed tree and the located
token. -/
theorem expand_hypothetical_spec_witness :
    expand_hypothetical hypoDb (.LazyMacro 0) ⟨0⟩ ⟨⟨0, 0⟩, SyntaxKind.OTHER 0⟩ =
      some (5, ⟨⟨0, 0⟩, SyntaxKind.OTHER 0⟩) := by
  have hsmall : ¬ TokenTree.count
      (TokenExpander.expand (TokenExpander.Builtin 0) hypoDb 0 smallTree).1 > 65536 := by
    rw [show (TokenExpander.expand (TokenExpander.Builtin 0) hypoDb 0 smallTree).1
      = smallTree from rfl, smallTree_count]
    omega
  have hexp : macro_expand_with_arg hypoDb (.LazyMacro 0) (some (smallTree, fullMap)) =
      (some smallTree, none) :=
    macro_expand_within_limit hypoDb 0 (some (smallTree, fullMap)) (smallTree, fullMap)
      (TokenExpander.Builtin 0, TokenMap.default) rfl rfl hsmall
  have h5 : parse_macro_with_arg hypoDb ⟨.LazyMacro 0⟩ (some (smallTree, fullMap)) =
      some (⟨5⟩, fullMap) := by
    simp only [parse_macro_with_arg, hexp]
    rfl
  exact (expand_hypothetical_spec hypoDb (.LazyMacro 0) ⟨0⟩ ⟨⟨0, 0⟩, SyntaxKind.OTHER 0⟩ 5
    ⟨⟨0, 0⟩, SyntaxKind.OTHER 0⟩).mpr
    ⟨smallTree, fullMap, ⟨0, 0⟩, 0, (TokenExpander.Builtin 0, TokenMap.default), ⟨5⟩, fullMap,
      ⟨fun _ => some ⟨0, 0⟩⟩, ⟨0, 0⟩, rfl, rfl, rfl, rfl, h5, rfl, rfl, rfl, rfl⟩

end RaHirExpand
